import Mathlib

/-
Verification of the Game-of-Life core in src/lib.rs (a Rust/wasm study
repository).  The Rust code is shallowly embedded: `u32` values are modelled
as `Nat`, with wrapping arithmetic (release-build semantics) made explicit
through `% 2 ^ 32` in the places where an overflow or underflow can actually
occur (flat indexing, pattern insertion, buffer reallocation); fallible
operations — Rust
slice indexing, which aborts on an out-of-bounds index — are modelled with
`Option`.  Grids are flat row-major `List Cell` buffers exactly as in the
source.
-/

/-- The `u32` modulus: Rust release builds wrap arithmetic at `2 ^ 32`. -/
def wordSize : Nat := 2 ^ 32

/-- Wrapping `u32` subtraction `a - b`. -/
def wsub (a b : Nat) : Nat := (a + (wordSize - b)) % wordSize

/-- Wrapping `u32` addition `a + b`. -/
def wadd (a b : Nat) : Nat := (a + b) % wordSize

/-- `enum Cell { Dead = 0, Alive = 1 }` from the source. -/
inductive Cell where
  | Dead : Cell
  | Alive : Cell
deriving DecidableEq, Repr

/-- The `as u8` view of a cell used by the neighbour counter. -/
def Cell.toNat : Cell → Nat
  | Cell.Dead => 0
  | Cell.Alive => 1

/-- `Cell::toggle` from the source. -/
def Cell.toggle : Cell → Cell
  | Cell.Dead => Cell.Alive
  | Cell.Alive => Cell.Dead

/-- `struct Pattern` from the source. -/
structure Pattern where
  alive_cells : List (Nat × Nat)
  width : Nat
  height : Nat
deriving DecidableEq, Repr

/-- Split a character list at every newline. -/
def splitNewline (acc : List Char) : List Char → List (List Char)
  | [] => [acc.reverse]
  | c :: rest =>
      if c = '\n' then acc.reverse :: splitNewline [] rest
      else splitNewline (c :: acc) rest

/-- Rust `str::lines`: split on a newline, drop the final empty piece
produced by a trailing newline, and strip a trailing carriage return from
each line. -/
def rustLines (s : String) : List (List Char) :=
  let parts := splitNewline [] s.toList
  let parts :=
    match parts.getLast? with
    | some [] => parts.dropLast
    | _ => parts
  parts.map (fun l => if l.getLast? = some '\r' then l.dropLast else l)

/-- `l.starts_with("!")` on a line. -/
def commentLine : List Char → Bool
  | [] => false
  | c :: _ => c = '!'

/-- The live-cell coordinates collected by `Pattern::from_str`: lines that
start with the comment marker are dropped, the remaining lines are
enumerated, and each occurrence of the alive marker at character position
`j` of line `i` yields the coordinate `(i, j)`. -/
def aliveCellsOf (schema : String) : List (Nat × Nat) :=
  (((rustLines schema).filter (fun l => !(commentLine l))).enum).flatMap
    (fun il =>
      ((il.2.enum).filter (fun jc => jc.2 == 'O')).map
        (fun jc => (il.1, jc.1)))

/-- `Pattern::from_str` from the source.  Note that the fold makes the
`width` field the maximal row index plus one and the `height` field the
maximal column index plus one (the source names are swapped relative to the
usual convention, and `insert_pattern` uses them in the same swapped way). -/
def Pattern.fromStr (schema : String) : Except String Pattern :=
  let alive_cells := aliveCellsOf schema
  if alive_cells.isEmpty then
    Except.error ("No alive cells in given pattern: [" ++ schema ++ "]")
  else
    let wh := alive_cells.foldl
      (fun m xy => (max m.1 (xy.1 + 1), max m.2 (xy.2 + 1))) (1, 1)
    Except.ok { alive_cells := alive_cells, width := wh.1, height := wh.2 }

/-- `struct Universe` from the source: the current grid, the scratch grid
written during `tick`, the diff buffer of changed flat indices, and the
dimensions. -/
structure Universe where
  cells : List Cell
  buffer : List Cell
  diff : List Int
  width : Nat
  height : Nat
deriving DecidableEq, Repr

/-- The well-formedness the source maintains for a freshly constructed
universe: positive dimensions and all three buffers of size
`width * height`.  The cell count fits a 32-bit `usize`: on the wasm32
target a vector's length is a 32-bit value, so a buffer of
`width * height` cells can exist only when that product is below
`2 ^ 32` — universes beyond that bound are not realizable program
states. -/
def Universe.wf (u : Universe) : Prop :=
  0 < u.width ∧ 0 < u.height ∧
    u.cells.length = u.width * u.height ∧
    u.buffer.length = u.width * u.height ∧
    u.diff.length = u.width * u.height ∧
    u.width * u.height < 2 ^ 32

instance (u : Universe) : Decidable u.wf := by
  unfold Universe.wf; infer_instance

/-- `Universe::get_index`: row-major flat index
`(row * self.width + column) as usize`, computed in wrapping `u32`
arithmetic — with caller-chosen coordinates the multiplication and the
addition can wrap past `2 ^ 32`. -/
def Universe.get_index (u : Universe) (row column : Nat) : Nat :=
  (row * u.width + column) % wordSize

/-- The wrapped north row used by `live_neighbor_count`. -/
def Universe.north (u : Universe) (row : Nat) : Nat :=
  if row = 0 then u.height - 1 else row - 1

/-- The wrapped south row used by `live_neighbor_count`. -/
def Universe.south (u : Universe) (row : Nat) : Nat :=
  if row = u.height - 1 then 0 else row + 1

/-- The wrapped west column used by `live_neighbor_count`. -/
def Universe.west (u : Universe) (column : Nat) : Nat :=
  if column = 0 then u.width - 1 else column - 1

/-- The wrapped east column used by `live_neighbor_count`. -/
def Universe.east (u : Universe) (column : Nat) : Nat :=
  if column = u.width - 1 then 0 else column + 1

/-- `Universe::live_neighbor_count`: the eight wrapped Moore-neighbourhood
reads, summed as integers.  Each slice read is fallible (a Rust
out-of-bounds index aborts), hence the `Option`. -/
def Universe.live_neighbor_count (u : Universe) (row column : Nat) :
    Option Nat :=
  match u.cells[u.get_index (u.north row) (u.west column)]?,
        u.cells[u.get_index (u.north row) column]?,
        u.cells[u.get_index (u.north row) (u.east column)]?,
        u.cells[u.get_index row (u.west column)]?,
        u.cells[u.get_index row (u.east column)]?,
        u.cells[u.get_index (u.south row) (u.west column)]?,
        u.cells[u.get_index (u.south row) column]?,
        u.cells[u.get_index (u.south row) (u.east column)]? with
  | some nw, some n, some ne, some w, some e, some sw, some s, some se =>
      some (nw.toNat + n.toNat + ne.toNat + w.toNat + e.toNat +
            sw.toNat + s.toNat + se.toNat)
  | _, _, _, _, _, _, _, _ => none

/-- The Game-of-Life transition `match` from `Universe::tick`, arm by
arm. -/
def nextCell (cell : Cell) (live_neighbors : Nat) : Cell :=
  match cell with
  | Cell.Alive =>
      if live_neighbors < 2 then Cell.Dead
      else if live_neighbors = 2 ∨ live_neighbors = 3 then Cell.Alive
      else if live_neighbors > 3 then Cell.Dead
      else Cell.Alive
  | Cell.Dead =>
      if live_neighbors = 3 then Cell.Alive
      else Cell.Dead

/-- Fallible single write `xs[i] = v` (aborts when `i` is out of
bounds). -/
def setAt? (xs : List α) (i : Nat) (v : α) : Option (List α) :=
  if i < xs.length then some (xs.set i v) else none

/-- A sequence of fallible writes of the same value, in order. -/
def setAllAt? (g : List α) : List Nat → α → Option (List α)
  | [], _ => some g
  | i :: rest, v =>
      match setAt? g i v with
      | none => none
      | some g2 => setAllAt? g2 rest v

/-- One iteration of the `tick` scan at cell `(row, col)`: read the current
cell and its neighbour count from the pre-tick grid, compute the next
state, record the flat index in the diff buffer when the state changed, and
write the next state into the scratch buffer.  The state is
`(scratch buffer, diff buffer, diff index)`. -/
def tickStep (u : Universe) (st : List Cell × List Int × Nat)
    (rc : Nat × Nat) : Option (List Cell × List Int × Nat) :=
  match u.cells[u.get_index rc.1 rc.2]? with
  | none => none
  | some cell =>
    match u.live_neighbor_count rc.1 rc.2 with
    | none => none
    | some live_neighbors =>
      let next := nextCell cell live_neighbors
      let idx := u.get_index rc.1 rc.2
      if cell ≠ next then
        match setAt? st.2.1 st.2.2 (Int.ofNat idx) with
        | none => none
        | some d =>
          match setAt? st.1 idx next with
          | none => none
          | some b => some (b, d, st.2.2 + 1)
      else
        match setAt? st.1 idx next with
        | none => none
        | some b => some (b, st.2.1, st.2.2)

/-- The `tick` double loop, iteration by iteration. -/
def tickLoop (u : Universe) :
    List (Nat × Nat) → List Cell × List Int × Nat →
      Option (List Cell × List Int × Nat)
  | [], st => some st
  | rc :: rest, st =>
      match tickStep u st rc with
      | none => none
      | some st2 => tickLoop u rest st2

/-- The row-major iteration order of the `tick` double loop. -/
def rowMajor (height width : Nat) : List (Nat × Nat) :=
  (List.range height).flatMap (fun r => (List.range width).map (fun c => (r, c)))

/-- `Universe::tick`: reset the diff buffer to the sentinel, scan all cells
in row-major order, then swap the current and scratch grids. -/
def Universe.tick (u : Universe) : Option Universe :=
  let diff0 := u.diff.map (fun _ => (-1 : Int))
  match tickLoop u (rowMajor u.height u.width) (u.buffer, diff0, 0) with
  | none => none
  | some st =>
      some { u with cells := st.1, buffer := u.cells, diff := st.2.1 }

/-- `Universe::random` with the random source made an explicit stream of
booleans (the source draws one `random()` boolean per cell). -/
def Universe.random (rng : Nat → Bool) (w h : Nat) : List Cell :=
  (List.range (w * h % wordSize)).map
    (fun i => if rng i then Cell.Dead else Cell.Alive)

/-- `Universe::new`: a 120 × 120 universe with random cells, a dead scratch
buffer, and a sentinel-filled diff buffer. -/
def Universe.new (rng : Nat → Bool) : Universe :=
  { width := 120, height := 120,
    cells := Universe.random rng 120 120,
    buffer := List.replicate (120 * 120) Cell.Dead,
    diff := List.replicate (120 * 120) (-1) }

/-- `Universe::randomize`. -/
def Universe.randomize (u : Universe) (rng : Nat → Bool) : Universe :=
  { u with cells := Universe.random rng u.width u.height }

/-- `Universe::clear`: write `Dead` at every flat index below
`width * height` (fallible indexing, as in the source). -/
def Universe.clear (u : Universe) : Option Universe :=
  match setAllAt? u.cells (List.range (u.width * u.height)) Cell.Dead with
  | none => none
  | some cells2 => some { u with cells := cells2 }

/-- `Universe::set_cells`: set each listed coordinate alive through
`get_index`, in order. -/
def Universe.set_cells (u : Universe) (cs : List (Nat × Nat)) :
    Option Universe :=
  match setAllAt? u.cells (cs.map (fun rc => u.get_index rc.1 rc.2))
      Cell.Alive with
  | none => none
  | some cells2 => some { u with cells := cells2 }

/-- `Universe::toggle_cell`. -/
def Universe.toggle_cell (u : Universe) (row column : Nat) :
    Option Universe :=
  match u.cells[u.get_index row column]? with
  | none => none
  | some c =>
      some { u with cells := u.cells.set (u.get_index row column) c.toggle }

/-- `Universe::set_width`: stores the new width and reallocates only the
`cells` buffer (`buffer` and `diff` are left untouched, exactly as in the
source). -/
def Universe.set_width (u : Universe) (width : Nat) : Universe :=
  { u with width := width,
           cells := List.replicate (width * u.height % wordSize) Cell.Dead }

/-- `Universe::set_height`: stores the new height and reallocates only the
`cells` buffer. -/
def Universe.set_height (u : Universe) (height : Nat) : Universe :=
  { u with height := height,
           cells := List.replicate (u.width * height % wordSize) Cell.Dead }

/-- `Universe::insert_pattern`.  The source computes the anchor with `u32`
arithmetic — `((row - center.0) + self.width) % self.width` — so the
subtraction wraps at `2 ^ 32`; note also that the source wraps the row
direction by `self.width` and the column direction by `self.height`, and
iterates `x` over `0..pattern.width` (the pattern's row extent, see
`Pattern.fromStr`). -/
def Universe.insert_pattern (u : Universe) (p : Pattern)
    (row column : Nat) : Option Universe :=
  let c0 := p.width / 2
  let c1 := p.height / 2
  let row2 := wadd (wsub row c0) u.width % u.width
  let col2 := wadd (wsub column c1) u.height % u.height
  let clearIdx := (List.range p.width).flatMap (fun x =>
    (List.range p.height).map (fun y =>
      u.get_index (wadd row2 x % u.width) (wadd col2 y % u.height)))
  let aliveIdx := p.alive_cells.map (fun xy =>
    u.get_index (wadd row2 xy.1 % u.width) (wadd col2 xy.2 % u.height))
  (setAllAt? u.cells clearIdx Cell.Dead).bind (fun cells1 =>
    (setAllAt? cells1 aliveIdx Cell.Alive).bind (fun cells2 =>
      some { u with cells := cells2 }))

/-- The glider schema embedded in `Universe::insert_glider`. -/
def gliderText : String :=
  "!Name: Glider\n!Author: Richard K. Guy\n!The smallest, most common, and first discovered spaceship.\n!www.conwaylife.com/wiki/index.php?title=Glider\n.O\n..O\nOOO"

/-- `Universe::insert_glider` (the `unwrap` of a failed parse aborts). -/
def Universe.insert_glider (u : Universe) (row column : Nat) :
    Option Universe :=
  match Pattern.fromStr gliderText with
  | Except.error _ => none
  | Except.ok p => u.insert_pattern p row column

/-- The pulsar schema embedded in `Universe::insert_pulsar`. -/
def pulsarText : String :=
  "!Name: Pulsar\n!Author: John Conway\n!Despite its size, this is the fourth most common oscillator (and by far the most common of period greater than 2).\n!www.conwaylife.com/wiki/index.php?title=Pulsar\n..OOO...OOO\n\nO....O.O....O\nO....O.O....O\nO....O.O....O\n..OOO...OOO\n\n..OOO...OOO\nO....O.O....O\nO....O.O....O\nO....O.O....O\n\n..OOO...OOO"

/-- `Universe::insert_pulsar`. -/
def Universe.insert_pulsar (u : Universe) (row column : Nat) :
    Option Universe :=
  match Pattern.fromStr pulsarText with
  | Except.error _ => none
  | Except.ok p => u.insert_pattern p row column

/-- The cell value the spec reads at `(row, col)` (grids are row-major, and
all uses are guarded by in-bounds hypotheses). -/
def Universe.cellAt (u : Universe) (row col : Nat) : Cell :=
  u.cells.getD (row * u.width + col) Cell.Dead

/-- The spec's live-neighbour count: the sum of the eight Moore-neighbour
cell values, with the wraparound rows and columns spelled out. -/
def Universe.mooreSum (u : Universe) (row col : Nat) : Nat :=
  (u.cellAt (u.north row) (u.west col)).toNat +
  (u.cellAt (u.north row) col).toNat +
  (u.cellAt (u.north row) (u.east col)).toNat +
  (u.cellAt row (u.west col)).toNat +
  (u.cellAt row (u.east col)).toNat +
  (u.cellAt (u.south row) (u.west col)).toNat +
  (u.cellAt (u.south row) col).toNat +
  (u.cellAt (u.south row) (u.east col)).toNat

/-- The spec's transition table, clause by clause: a live cell with fewer
than two live neighbours dies, with two or three survives, with more than
three dies; a dead cell with exactly three live neighbours becomes alive;
every other cell is unchanged. -/
def specNextState (cell : Cell) (liveNeighbors : Nat) : Cell :=
  if cell = Cell.Alive ∧ liveNeighbors < 2 then Cell.Dead
  else if cell = Cell.Alive ∧ (liveNeighbors = 2 ∨ liveNeighbors = 3) then
    Cell.Alive
  else if cell = Cell.Alive ∧ liveNeighbors > 3 then Cell.Dead
  else if cell = Cell.Dead ∧ liveNeighbors = 3 then Cell.Alive
  else cell

/-- The next state of the cell with flat index `idx`, read off the pre-tick
grid. -/
def Universe.nextAt (u : Universe) (idx : Nat) : Cell :=
  nextCell (u.cells.getD idx Cell.Dead)
    (u.mooreSum (idx / u.width) (idx % u.width))

/-- Whether the tick changes the cell with flat index `idx`. -/
def Universe.changedB (u : Universe) (idx : Nat) : Bool :=
  decide (u.cells.getD idx Cell.Dead ≠ u.nextAt idx)

/-- The sentinel-terminated prefix of a diff buffer. -/
def takeUntilSentinel : List Int → List Int
  | [] => []
  | d :: rest => if d = -1 then [] else d :: takeUntilSentinel rest

/-- Toggle the cell at flat index `i` of a grid (no-op out of bounds). -/
def flipAt (g : List Cell) (i : Nat) : List Cell :=
  match g[i]? with
  | some c => g.set i c.toggle
  | none => g

/-- Replay a diff buffer against a grid: flip every flat index in the
sentinel-terminated prefix. -/
def replayDiff (g : List Cell) (ds : List Int) : List Cell :=
  (takeUntilSentinel ds).foldl (fun g2 d => flipAt g2 d.toNat) g

/-- An all-dead universe with the three buffers correctly sized, used for
concrete instances. -/
def deadUniverse (w h : Nat) : Universe :=
  { width := w, height := h,
    cells := List.replicate (w * h) Cell.Dead,
    buffer := List.replicate (w * h) Cell.Dead,
    diff := List.replicate (w * h) (-1) }

/-- An in-bounds read returns the default-read value. -/
theorem getElem?_eq_some_getD {α : Type} (l : List α) (i : Nat) (d : α)
    (h : i < l.length) : l[i]? = some (l.getD i d) := by
  simp [List.getD_eq_getElem?_getD, List.getElem?_eq_getElem h]

theorem Cell.toNat_le_one (c : Cell) : c.toNat ≤ 1 := by
  cases c <;> simp [Cell.toNat]

theorem Universe.north_lt (u : Universe) (row : Nat) (hh : 0 < u.height)
    (hr : row < u.height) : u.north row < u.height := by
  unfold Universe.north; split <;> omega

theorem Universe.south_lt (u : Universe) (row : Nat) (hh : 0 < u.height)
    (hr : row < u.height) : u.south row < u.height := by
  unfold Universe.south; split <;> omega

theorem Universe.west_lt (u : Universe) (col : Nat) (hw : 0 < u.width)
    (hc : col < u.width) : u.west col < u.width := by
  unfold Universe.west; split <;> omega

theorem Universe.east_lt (u : Universe) (col : Nat) (hw : 0 < u.width)
    (hc : col < u.width) : u.east col < u.width := by
  unfold Universe.east; split <;> omega

/-- A row-major index of an in-bounds coordinate is inside the grid
buffer. -/
theorem index_lt {w h : Nat} (r c : Nat) (hr : r < h) (hc : c < w) :
    r * w + c < w * h := by
  calc r * w + c < (r + 1) * w := by
        have : (r + 1) * w = r * w + w := by ring
        omega
    _ ≤ h * w := Nat.mul_le_mul_right w hr
    _ = w * h := Nat.mul_comm h w

/-- For in-bounds coordinates of a well-formed universe the wrapping flat
index coincides with the mathematical row-major index. -/
theorem Universe.get_index_eq (u : Universe) (hu : u.wf) (row col : Nat)
    (hr : row < u.height) (hc : col < u.width) :
    u.get_index row col = row * u.width + col := by
  unfold Universe.get_index wordSize
  exact Nat.mod_eq_of_lt (lt_trans (index_lt row col hr hc) hu.2.2.2.2.2)

/-- In-bounds, the code's neighbour counter returns exactly the spec's
Moore-neighbourhood sum. -/
theorem Universe.live_neighbor_count_eq (u : Universe) (hu : u.wf)
    (row col : Nat) (hr : row < u.height) (hc : col < u.width) :
    u.live_neighbor_count row col = some (u.mooreSum row col) := by
  have hw := hu.1
  have hh := hu.2.1
  have hcells := hu.2.2.1
  have hn := u.north_lt row hh hr
  have hs := u.south_lt row hh hr
  have hwe := u.west_lt col hw hc
  have he := u.east_lt col hw hc
  have read : ∀ r c2, r < u.height → c2 < u.width →
      u.cells[u.get_index r c2]? = some (u.cellAt r c2) := by
    intro r c2 h1 h2
    rw [u.get_index_eq hu r c2 h1 h2]
    unfold Universe.cellAt
    exact getElem?_eq_some_getD _ _ _ (by rw [hcells]; exact index_lt r c2 h1 h2)
  unfold Universe.live_neighbor_count
  rw [read _ _ hn hwe, read _ _ hn hc, read _ _ hn he, read _ _ hr hwe,
      read _ _ hr he, read _ _ hs hwe, read _ _ hs hc, read _ _ hs he]
  rfl

/-- The Moore-neighbourhood sum of eight 0/1 values is at most eight. -/
theorem Universe.mooreSum_le_eight (u : Universe) (row col : Nat) :
    u.mooreSum row col ≤ 8 := by
  unfold Universe.mooreSum
  have t1 := Cell.toNat_le_one (u.cellAt (u.north row) (u.west col))
  have t2 := Cell.toNat_le_one (u.cellAt (u.north row) col)
  have t3 := Cell.toNat_le_one (u.cellAt (u.north row) (u.east col))
  have t4 := Cell.toNat_le_one (u.cellAt row (u.west col))
  have t5 := Cell.toNat_le_one (u.cellAt row (u.east col))
  have t6 := Cell.toNat_le_one (u.cellAt (u.south row) (u.west col))
  have t7 := Cell.toNat_le_one (u.cellAt (u.south row) col)
  have t8 := Cell.toNat_le_one (u.cellAt (u.south row) (u.east col))
  omega

/-- The transition `match` of the code agrees with the spec's rule table at
every cell state and neighbour count. -/
theorem nextCell_eq_specNextState (c : Cell) (n : Nat) :
    nextCell c n = specNextState c n := by
  cases c <;> unfold nextCell specNextState <;> split_ifs <;> simp_all

/-- One `tick` iteration, re-indexed by the flat index it writes. -/
def stepIdx (u : Universe) (st : List Cell × List Int × Nat) (i : Nat) :
    Option (List Cell × List Int × Nat) :=
  tickStep u st (i / u.width, i % u.width)

/-- The `tick` loop over a list of flat indices. -/
def idxLoop (u : Universe) :
    List Nat → List Cell × List Int × Nat →
      Option (List Cell × List Int × Nat)
  | [], st => some st
  | i :: rest, st =>
      match stepIdx u st i with
      | none => none
      | some st2 => idxLoop u rest st2

/-- Write `f j` at every index `j` of a list of positions, in order. -/
def writeWith (f : Nat → α) (g : List α) (js : List Nat) : List α :=
  js.foldl (fun b j => b.set j (f j)) g

theorem writeWith_cons (f : Nat → α) (g : List α) (j : Nat)
    (rest : List Nat) :
    writeWith f g (j :: rest) = writeWith f (g.set j (f j)) rest := rfl

theorem writeWith_length (f : Nat → α) :
    ∀ (js : List Nat) (g : List α), (writeWith f g js).length = g.length := by
  intro js
  induction js with
  | nil => intro g; rfl
  | cons j rest ih =>
      intro g
      rw [writeWith_cons, ih, List.length_set]

/-- Pointwise description of `writeWith`: a position in the write list gets
its new value, every other position keeps the old one. -/
theorem writeWith_getElem? (f : Nat → α) :
    ∀ (js : List Nat) (g : List α) (i : Nat),
      (writeWith f g js)[i]? =
        if i ∈ js ∧ i < g.length then some (f i) else g[i]? := by
  intro js
  induction js with
  | nil => intro g i; simp [writeWith]
  | cons j rest ih =>
      intro g i
      rw [writeWith_cons, ih]
      by_cases hlen : i < g.length
      · by_cases hmem : i ∈ rest
        · simp [List.length_set, hlen, hmem, List.mem_cons]
        · by_cases hij : i = j
          · subst hij
            simp [List.length_set, hlen, hmem, List.getElem?_set_self hlen]
          · have hji : j ≠ i := fun hh => hij hh.symm
            simp [List.length_set, hlen, hmem, hij, List.mem_cons,
              List.getElem?_set_ne hji]
      · have h2 : ¬ i < (g.set j (f j)).length := by
          rw [List.length_set]; exact hlen
        rw [if_neg (fun hh => h2 hh.2), if_neg (fun hh => hlen hh.2),
            List.getElem?_eq_none (by rw [List.length_set]; omega),
            List.getElem?_eq_none (by omega)]

/-- When every write is in bounds, the fallible write sequence succeeds and
equals the pure fold. -/
theorem setAllAt?_eq_writeWith (v : α) :
    ∀ (js : List Nat) (g : List α), (∀ i ∈ js, i < g.length) →
      setAllAt? g js v = some (writeWith (fun _ => v) g js) := by
  intro js
  induction js with
  | nil => intro g _; rfl
  | cons j rest ih =>
      intro g hb
      have hj : j < g.length := hb j (List.mem_cons_self _ _)
      show (match setAt? g j v with
            | none => none
            | some g2 => setAllAt? g2 rest v) = _
      rw [setAt?, if_pos hj]
      show setAllAt? (g.set j v) rest v = _
      rw [ih (g.set j v)
        (fun i hi => by rw [List.length_set]; exact hb i (List.mem_cons_of_mem _ hi))]
      rfl

/-- Setting the slot just after a prefix inside the sentinel tail. -/
theorem set_after_append {α : Type} (P : List α) (r : Nat) (v d : α)
    (hr : 0 < r) :
    (P ++ List.replicate r d).set P.length v =
      P ++ v :: List.replicate (r - 1) d := by
  induction P with
  | nil =>
      cases r with
      | zero => omega
      | succ r2 => simp [List.replicate_succ]
  | cons a P ih =>
      simp only [List.cons_append, List.length_cons, List.set_cons_succ]
      rw [ih]

/-- One in-bounds `tick` iteration, fully described: the scratch buffer gets
the next state at the scanned index, and the diff prefix grows exactly when
the cell changes. -/
theorem stepIdx_eq (u : Universe) (hu : u.wf) (k : Nat)
    (hk : k < u.width * u.height)
    (buf : List Cell) (P : List Int) (m : Nat)
    (hbuf : buf.length = u.width * u.height)
    (hP : P.length = m) (hm : m ≤ k) :
    stepIdx u (buf, P ++ List.replicate (u.width * u.height - m) (-1), m) k =
      some (buf.set k (u.nextAt k),
        if u.changedB k then
          P ++ Int.ofNat k ::
            List.replicate (u.width * u.height - (m + 1)) (-1)
        else P ++ List.replicate (u.width * u.height - m) (-1),
        if u.changedB k then m + 1 else m) := by
  have hw := hu.1
  have hh := hu.2.1
  have hcells := hu.2.2.1
  have hrow : k / u.width < u.height := by
    rw [Nat.div_lt_iff_lt_mul hw, Nat.mul_comm]
    exact hk
  have hcol : k % u.width < u.width := Nat.mod_lt _ hw
  have hidx : u.get_index (k / u.width) (k % u.width) = k := by
    unfold Universe.get_index wordSize
    rw [Nat.mul_comm, Nat.div_add_mod]
    exact Nat.mod_eq_of_lt (lt_trans hk hu.2.2.2.2.2)
  have hread : u.cells[k]? = some (u.cells.getD k Cell.Dead) :=
    getElem?_eq_some_getD _ _ _ (by omega)
  have hdlen : (P ++ List.replicate (u.width * u.height - m) (-1 : Int)).length
      = u.width * u.height := by
    rw [List.length_append, List.length_replicate]
    omega
  unfold stepIdx tickStep
  rw [hidx, hread, u.live_neighbor_count_eq hu _ _ hrow hcol]
  show (if u.cells.getD k Cell.Dead ≠ u.nextAt k then _ else _) = _
  by_cases hch : u.cells.getD k Cell.Dead ≠ u.nextAt k
  · have hchB : u.changedB k = true := by
      unfold Universe.changedB; exact decide_eq_true hch
    rw [if_pos hch]
    show (match setAt? (P ++ List.replicate (u.width * u.height - m) (-1)) m
            (Int.ofNat k) with
          | none => none
          | some d =>
            match setAt? buf k (u.nextAt k) with
            | none => none
            | some b => some (b, d, m + 1)) = _
    rw [setAt?, if_pos (by omega), setAt?, if_pos (by omega)]
    show some _ = _
    rw [hchB]
    simp only [if_pos]
    rw [← hP, set_after_append _ _ _ _ (by omega)]
    have : u.width * u.height - (P.length + 1) =
        u.width * u.height - P.length - 1 := by omega
    rw [this, hP]
  · have hchB : u.changedB k = false := by
      unfold Universe.changedB
      exact decide_eq_false hch
    rw [if_neg hch]
    show (match setAt? buf k (u.nextAt k) with
          | none => none
          | some b =>
            some (b, P ++ List.replicate (u.width * u.height - m) (-1), m)) = _
    rw [setAt?, if_pos (by omega)]
    rw [hchB]
    simp only [if_neg]
    rfl

/-- Invariant of the `tick` scan: after processing flat indices
`k, k+1, …, k+cnt-1` the scratch buffer holds the next state at every
processed index and the diff buffer is the list of changed indices so far
followed by sentinels. -/
theorem idxLoop_spec (u : Universe) (hu : u.wf) :
    ∀ (cnt k : Nat) (buf : List Cell),
      k + cnt = u.width * u.height →
      buf.length = u.width * u.height →
      idxLoop u (List.range' k cnt)
        (buf,
         ((List.range k).filter u.changedB).map Int.ofNat ++
           List.replicate (u.width * u.height -
             ((List.range k).filter u.changedB).length) (-1),
         ((List.range k).filter u.changedB).length) =
      some (writeWith u.nextAt buf (List.range' k cnt),
        ((List.range (k + cnt)).filter u.changedB).map Int.ofNat ++
          List.replicate (u.width * u.height -
            ((List.range (k + cnt)).filter u.changedB).length) (-1),
        ((List.range (k + cnt)).filter u.changedB).length) := by
  intro cnt
  induction cnt with
  | zero =>
      intro k buf hk hbuf
      rfl
  | succ cnt ih =>
      intro k buf hk hbuf
      have hkN : k < u.width * u.height := by omega
      have hm : ((List.range k).filter u.changedB).length ≤ k := by
        calc ((List.range k).filter u.changedB).length
            ≤ (List.range k).length := List.length_filter_le _ _
          _ = k := List.length_range k
      rw [List.range'_succ]
      show (match stepIdx u _ k with
            | none => none
            | some st2 => idxLoop u (List.range' (k + 1) cnt) st2) = _
      rw [stepIdx_eq u hu k hkN buf _ _ hbuf (List.length_map _ _) hm]
      have hfilter : (List.range (k + 1)).filter u.changedB =
          (List.range k).filter u.changedB ++
            (if u.changedB k then [k] else []) := by
        rw [List.range_succ, List.filter_append, List.filter_cons]
        cases hc : u.changedB k <;> simp [hc]
      by_cases hch : u.changedB k = true
      · rw [if_pos hch, if_pos hch]
        show idxLoop u (List.range' (k + 1) cnt) _ = _
        have e1 : ((List.range (k + 1)).filter u.changedB).map Int.ofNat =
            ((List.range k).filter u.changedB).map Int.ofNat ++ [Int.ofNat k] := by
          rw [hfilter, if_pos hch, List.map_append]
          rfl
        have e2 : ((List.range (k + 1)).filter u.changedB).length =
            ((List.range k).filter u.changedB).length + 1 := by
          rw [hfilter, if_pos hch, List.length_append]
          rfl
        have := ih (k + 1) (buf.set k (u.nextAt k))
          (by omega) (by rw [List.length_set]; exact hbuf)
        rw [e1, e2, List.append_assoc, List.singleton_append] at this
        rw [show (k + 1) + cnt = k + (cnt + 1) from by omega] at this
        rw [← writeWith_cons] at this
        exact this
      · have hch2 : u.changedB k = false := by
          cases hc : u.changedB k
          · rfl
          · exact absurd hc hch
        rw [if_neg (by rw [hch2]; simp), if_neg (by rw [hch2]; simp)]
        show idxLoop u (List.range' (k + 1) cnt) _ = _
        have e1 : (List.range (k + 1)).filter u.changedB =
            (List.range k).filter u.changedB := by
          rw [hfilter, if_neg (by rw [hch2]; simp), List.append_nil]
        have := ih (k + 1) (buf.set k (u.nextAt k))
          (by omega) (by rw [List.length_set]; exact hbuf)
        rw [e1] at this
        rw [show (k + 1) + cnt = k + (cnt + 1) from by omega] at this
        rw [← writeWith_cons] at this
        exact this

/-- The `tick` double loop equals the flat-index loop on the mapped index
list when every visited column is in range. -/
theorem tickLoop_eq_idxLoop (u : Universe) (hw : 0 < u.width) :
    ∀ (rs : List (Nat × Nat)) (st : List Cell × List Int × Nat),
      (∀ rc ∈ rs, rc.2 < u.width) →
      tickLoop u rs st =
        idxLoop u (rs.map (fun rc => rc.1 * u.width + rc.2)) st := by
  intro rs
  induction rs with
  | nil => intro st _; rfl
  | cons rc rest ih =>
      intro st hb
      have hc : rc.2 < u.width := hb rc (List.mem_cons_self _ _)
      have hstep : stepIdx u st (rc.1 * u.width + rc.2) = tickStep u st rc := by
        unfold stepIdx
        have hdiv : (rc.1 * u.width + rc.2) / u.width = rc.1 := by
          rw [Nat.mul_comm, Nat.mul_add_div hw, Nat.div_eq_of_lt hc]
          omega
        have hmod : (rc.1 * u.width + rc.2) % u.width = rc.2 := by
          rw [Nat.mul_comm, Nat.mul_add_mod, Nat.mod_eq_of_lt hc]
        rw [hdiv, hmod]
      show (match tickStep u st rc with
            | none => none
            | some st2 => tickLoop u rest st2) = _
      rw [List.map_cons]
      show _ = (match stepIdx u st (rc.1 * u.width + rc.2) with
                | none => none
                | some st2 =>
                    idxLoop u (rest.map (fun rc => rc.1 * u.width + rc.2)) st2)
      rw [hstep]
      cases tickStep u st rc with
      | none => rfl
      | some st2 =>
          exact ih st2 (fun x hx => hb x (List.mem_cons_of_mem _ hx))

/-- Every pair the row-major scan visits has an in-range column. -/
theorem rowMajor_snd_lt (h w : Nat) :
    ∀ rc ∈ rowMajor h w, rc.2 < w := by
  intro rc hrc
  unfold rowMajor at hrc
  rw [List.mem_flatMap] at hrc
  obtain ⟨r, -, hrc⟩ := hrc
  rw [List.mem_map] at hrc
  obtain ⟨c, hc, rfl⟩ := hrc
  exact List.mem_range.1 hc

/-- The row-major scan enumerates the flat indices `0, …, h*w - 1` in
order. -/
theorem rowMajor_map_index (w : Nat) :
    ∀ h : Nat, (rowMajor h w).map (fun rc => rc.1 * w + rc.2) =
      List.range (h * w) := by
  intro h
  induction h with
  | zero => rw [Nat.zero_mul]; rfl
  | succ h ih =>
      unfold rowMajor at ih ⊢
      rw [List.range_succ, List.flatMap_append, List.map_append, ih,
          Nat.succ_mul, List.range_add]
      congr 1
      simp only [List.flatMap_cons, List.flatMap_nil, List.append_nil,
        List.map_map]
      apply List.map_congr_left
      intro c hc
      simp [Nat.add_comm]

theorem map_const_replicate {α β : Type} (c : β) :
    ∀ l : List α, l.map (fun _ => c) = List.replicate l.length c := by
  intro l
  induction l with
  | nil => rfl
  | cons a l ih => simp [List.replicate_succ, ih]

/-- Writing `f i` at every index of a full-length buffer produces the
tabulation of `f`. -/
theorem writeWith_full (f : Nat → α) (buf : List α) (N : Nat)
    (hbuf : buf.length = N) :
    writeWith f buf (List.range N) = (List.range N).map f := by
  apply List.ext_getElem?
  intro i
  rw [writeWith_getElem?, List.getElem?_map]
  by_cases hi : i < N
  · rw [if_pos ⟨List.mem_range.2 hi, by omega⟩]
    simp [List.getElem?_range, hi]
  · rw [if_neg (fun hh => hi (List.mem_range.1 hh.1))]
    rw [List.getElem?_eq_none (by omega), List.getElem?_eq_none (by simp; omega)]
    rfl

/-- Full description of `Universe::tick` on a well-formed universe: the new
grid is the tabulated next state of every cell, the scratch buffer receives
the old grid (buffer swap), and the diff buffer is the ascending list of
changed flat indices padded with the sentinel. -/
theorem tick_spec (u : Universe) (hu : u.wf) :
    u.tick = some { u with
      cells := (List.range (u.width * u.height)).map u.nextAt,
      buffer := u.cells,
      diff :=
        ((List.range (u.width * u.height)).filter u.changedB).map Int.ofNat ++
          List.replicate (u.width * u.height -
            ((List.range (u.width * u.height)).filter u.changedB).length)
            (-1) } := by
  have hw := hu.1
  have hbuf := hu.2.2.2.1
  have hdiff := hu.2.2.2.2.1
  have hinv := idxLoop_spec u hu (u.width * u.height) 0 u.buffer
    (by omega) hbuf
  rw [← List.range_eq_range'] at hinv
  simp only [List.range_zero, List.filter_nil, List.map_nil, List.length_nil,
    List.nil_append, Nat.sub_zero, Nat.zero_add] at hinv
  unfold Universe.tick
  rw [map_const_replicate, hdiff]
  show (match tickLoop u (rowMajor u.height u.width)
          (u.buffer, List.replicate (u.width * u.height) (-1), 0) with
        | none => none
        | some st =>
            some ({ cells := st.1, buffer := u.cells, diff := st.2.1,
                    width := u.width, height := u.height } : Universe)) = _
  rw [tickLoop_eq_idxLoop u hw _ _ (rowMajor_snd_lt u.height u.width),
      rowMajor_map_index, Nat.mul_comm u.height u.width, hinv,
      writeWith_full u.nextAt u.buffer (u.width * u.height) hbuf]

/-- Row-major index decomposition. -/
theorem index_div_mod (w r c : Nat) (hw : 0 < w) (hc : c < w) :
    (r * w + c) / w = r ∧ (r * w + c) % w = c := by
  constructor
  · rw [Nat.mul_comm, Nat.mul_add_div hw, Nat.div_eq_of_lt hc]
    omega
  · rw [Nat.mul_comm, Nat.mul_add_mod, Nat.mod_eq_of_lt hc]

/-- Claim C1: `tick()` advances the grid by exactly one Game-of-Life
generation — it succeeds on every well-formed universe, and every new cell
value is obtained by applying the spec's transition table to that cell's
pre-tick state and pre-tick live-neighbour count, so all transitions read
the pre-tick grid only and are applied simultaneously. -/
theorem tick_advances_one_generation (u : Universe) (hu : u.wf) :
    ∃ u2, u.tick = some u2 ∧ u2.width = u.width ∧ u2.height = u.height ∧
      u2.cells.length = u.width * u.height ∧
      ∀ row col, row < u.height → col < u.width →
        u2.cells[row * u.width + col]? =
          some (specNextState (u.cellAt row col) (u.mooreSum row col)) := by
  refine ⟨_, tick_spec u hu, rfl, rfl, by simp, ?_⟩
  intro row col hr hc
  have hidx : row * u.width + col < u.width * u.height := index_lt row col hr hc
  have hdm := index_div_mod u.width row col hu.1 hc
  rw [List.getElem?_map, List.getElem?_range hidx]
  show some (u.nextAt (row * u.width + col)) = _
  unfold Universe.nextAt Universe.cellAt
  rw [hdm.1, hdm.2, nextCell_eq_specNextState]

theorem tick_advances_one_generation_witness :
    (deadUniverse 2 2).wf ∧
    ∃ u2, (deadUniverse 2 2).tick = some u2 ∧
      u2.width = (deadUniverse 2 2).width ∧
      u2.height = (deadUniverse 2 2).height ∧
      u2.cells.length = (deadUniverse 2 2).width * (deadUniverse 2 2).height ∧
      ∀ row col, row < (deadUniverse 2 2).height →
        col < (deadUniverse 2 2).width →
        u2.cells[row * (deadUniverse 2 2).width + col]? =
          some (specNextState ((deadUniverse 2 2).cellAt row col)
            ((deadUniverse 2 2).mooreSum row col)) :=
  ⟨by decide, tick_advances_one_generation (deadUniverse 2 2) (by decide)⟩

/-- Claim C2: in bounds, `live_neighbor_count` returns exactly the sum of
the eight Moore-neighbourhood cell values computed with the toroidal
wraparound rows and columns, a value between 0 and 8. -/
theorem live_neighbor_count_is_moore_sum (u : Universe) (row col : Nat)
    (hu : u.wf) (hr : row < u.height) (hc : col < u.width) :
    u.live_neighbor_count row col = some (u.mooreSum row col) ∧
      u.mooreSum row col ≤ 8 :=
  ⟨u.live_neighbor_count_eq hu row col hr hc, u.mooreSum_le_eight row col⟩

theorem live_neighbor_count_is_moore_sum_witness :
    ((deadUniverse 3 3).wf ∧ 0 < (deadUniverse 3 3).height ∧
      0 < (deadUniverse 3 3).width) ∧
    ((deadUniverse 3 3).live_neighbor_count 0 0 =
        some ((deadUniverse 3 3).mooreSum 0 0) ∧
      (deadUniverse 3 3).mooreSum 0 0 ≤ 8) :=
  ⟨by decide,
   live_neighbor_count_is_moore_sum (deadUniverse 3 3) 0 0 (by decide)
     (by decide) (by decide)⟩

/-- Claim C10: on a 1×1 universe the eight wrapped neighbours all coincide
with the cell itself, so the count is 8 for a live sole cell and 0 for a
dead one, and one `tick` leaves the universe entirely dead. -/
theorem one_by_one_universe_dies (u : Universe) (hu : u.wf)
    (hw : u.width = 1) (hh : u.height = 1) :
    (∀ c, u.cells = [c] →
        u.live_neighbor_count 0 0 = some (8 * c.toNat)) ∧
    ∃ u2, u.tick = some u2 ∧ ∀ c ∈ u2.cells, c = Cell.Dead := by
  have key : ∀ c, u.cells = [c] → u.mooreSum 0 0 = 8 * c.toNat := by
    intro c hcell
    unfold Universe.mooreSum Universe.cellAt Universe.north Universe.south
      Universe.west Universe.east
    rw [hw, hh, hcell]
    simp
    omega
  have hlen : u.cells.length = 1 := by
    rw [hu.2.2.1, hw, hh]
  obtain ⟨c0, hc0⟩ := List.length_eq_one.1 hlen
  constructor
  · intro c hcell
    rw [u.live_neighbor_count_eq hu 0 0 (by omega) (by omega), key c hcell]
  · refine ⟨_, tick_spec u hu, ?_⟩
    intro c hc
    rw [hw, hh] at hc
    rw [show List.range (1 * 1) = [0] from rfl] at hc
    simp only [List.map_cons, List.map_nil, List.mem_singleton] at hc
    subst hc
    unfold Universe.nextAt
    rw [hc0]
    have h00 : u.mooreSum (0 / u.width) (0 % u.width) = u.mooreSum 0 0 := by
      rw [Nat.zero_div, Nat.zero_mod]
    rw [h00, key c0 hc0]
    cases c0 <;> rfl

def oneAliveUniverse : Universe :=
  { width := 1, height := 1, cells := [Cell.Alive],
    buffer := [Cell.Dead], diff := [-1] }

theorem one_by_one_universe_dies_witness :
    oneAliveUniverse.wf ∧
    ((∀ c, oneAliveUniverse.cells = [c] →
        oneAliveUniverse.live_neighbor_count 0 0 = some (8 * c.toNat)) ∧
      ∃ u2, oneAliveUniverse.tick = some u2 ∧
        ∀ c ∈ u2.cells, c = Cell.Dead) :=
  ⟨by decide,
   one_by_one_universe_dies oneAliveUniverse (by decide) (by decide)
     (by decide)⟩

/-- The sentinel-terminated prefix of a sentinel-free list padded with
sentinels is the list itself. -/
theorem takeUntilSentinel_pad (P : List Int) (hP : ∀ d ∈ P, d ≠ -1)
    (r : Nat) :
    takeUntilSentinel (P ++ List.replicate r (-1)) = P := by
  induction P with
  | nil =>
      cases r with
      | zero => rfl
      | succ r2 => simp [List.replicate_succ, takeUntilSentinel]
  | cons d P ih =>
      have hd : d ≠ -1 := hP d (List.mem_cons_self _ _)
      rw [List.cons_append]
      unfold takeUntilSentinel
      rw [if_neg hd, ih (fun x hx => hP x (List.mem_cons_of_mem _ hx))]

/-- Pointwise description of replaying a duplicate-free list of flips. -/
theorem foldl_flipAt_getElem? :
    ∀ (is : List Nat) (g : List Cell), is.Nodup →
      ∀ j, (is.foldl (fun g2 i => flipAt g2 i) g)[j]? =
        if j ∈ is then (g[j]?).map Cell.toggle else g[j]? := by
  intro is
  induction is with
  | nil => intro g _ j; simp
  | cons i rest ih =>
      intro g hnd j
      have hi_not : i ∉ rest := (List.nodup_cons.1 hnd).1
      have hflip : ∀ k, (flipAt g i)[k]? =
          if i = k then (g[k]?).map Cell.toggle else g[k]? := by
        intro k
        unfold flipAt
        by_cases hib : i < g.length
        · rw [getElem?_eq_some_getD g i Cell.Dead hib]
          by_cases hik : i = k
          · subst hik
            rw [if_pos rfl, List.getElem?_set_self hib,
                getElem?_eq_some_getD g i Cell.Dead hib]
            rfl
          · rw [if_neg hik, List.getElem?_set_ne hik]
        · rw [List.getElem?_eq_none (Nat.le_of_not_lt hib)]
          show g[k]? = if i = k then (g[k]?).map Cell.toggle else g[k]?
          by_cases hik : i = k
          · subst hik
            rw [if_pos rfl, List.getElem?_eq_none (Nat.le_of_not_lt hib)]
            rfl
          · rw [if_neg hik]
      rw [List.foldl_cons, ih (flipAt g i) (List.nodup_cons.1 hnd).2 j, hflip j]
      by_cases hjr : j ∈ rest
      · have hij : i ≠ j := fun hij2 => hi_not (by rw [hij2]; exact hjr)
        rw [if_neg hij, if_pos hjr, if_pos (List.mem_cons_of_mem _ hjr)]
      · rw [if_neg hjr]
        by_cases hij : i = j
        · subst hij
          rw [if_pos rfl, if_pos (List.mem_cons_self _ _)]
        · rw [if_neg hij, if_neg (by
            intro hmem
            rcases List.mem_cons.1 hmem with h1 | h1
            · exact hij h1.symm
            · exact hjr h1)]

/-- Claim C3: replaying the sentinel-terminated prefix of the diff buffer
against the pre-tick grid — flipping exactly the listed flat indices —
reproduces the post-tick grid. -/
theorem diff_replay_reproduces_post_grid (u u2 : Universe) (hu : u.wf)
    (ht : u.tick = some u2) :
    replayDiff u.cells u2.diff = u2.cells := by
  rw [tick_spec u hu] at ht
  injection ht with ht
  subst ht
  have hclen := hu.2.2.1
  unfold replayDiff
  show List.foldl (fun g2 d => flipAt g2 d.toNat) u.cells
      (takeUntilSentinel
        (((List.range (u.width * u.height)).filter u.changedB).map Int.ofNat ++
          List.replicate (u.width * u.height -
            ((List.range (u.width * u.height)).filter u.changedB).length)
            (-1))) =
    (List.range (u.width * u.height)).map u.nextAt
  rw [takeUntilSentinel_pad _ (by
    intro d hd
    rw [List.mem_map] at hd
    obtain ⟨a, -, rfl⟩ := hd
    rw [Int.ofNat_eq_natCast]
    omega)]
  rw [List.foldl_map]
  have hbody : (fun (g2 : List Cell) (a : Nat) => flipAt g2 (Int.ofNat a).toNat) =
      (fun (g2 : List Cell) (a : Nat) => flipAt g2 a) := rfl
  rw [hbody]
  have hnd : ((List.range (u.width * u.height)).filter u.changedB).Nodup :=
    (List.nodup_range _).filter _
  apply List.ext_getElem?
  intro j
  rw [foldl_flipAt_getElem? _ _ hnd j]
  by_cases hj : j < u.width * u.height
  · rw [List.getElem?_map, List.getElem?_range hj]
    have hread : u.cells[j]? = some (u.cells.getD j Cell.Dead) :=
      getElem?_eq_some_getD _ _ _ (by omega)
    by_cases hch : u.changedB j = true
    · rw [if_pos (List.mem_filter.2 ⟨List.mem_range.2 hj, hch⟩), hread]
      have hne : u.cells.getD j Cell.Dead ≠ u.nextAt j :=
        of_decide_eq_true hch
      show some ((u.cells.getD j Cell.Dead).toggle) = some (u.nextAt j)
      cases hold : u.cells.getD j Cell.Dead <;>
        cases hnew : u.nextAt j <;> simp_all [Cell.toggle]
    · rw [if_neg (fun hmem => hch (List.mem_filter.1 hmem).2), hread]
      have heq : u.cells.getD j Cell.Dead = u.nextAt j := by
        by_contra hne
        exact hch (decide_eq_true hne)
      rw [heq]
      rfl
  · rw [if_neg (fun hmem =>
        hj (List.mem_range.1 (List.mem_filter.1 hmem).1)),
      List.getElem?_eq_none (by omega),
      List.getElem?_eq_none (by rw [List.length_map, List.length_range]; omega)]

/-- Claim C4: after `tick`, the diff buffer is exactly the ascending
(row-major scan order) list of flat indices whose cell value changed,
followed only by the sentinel `-1` in every remaining slot — the whole
buffer was reset before the scan, so nothing from an earlier tick survives
past the prefix, and the prefix fills the whole buffer when every cell
changed. -/
theorem diff_buffer_layout_after_tick (u u2 : Universe) (hu : u.wf)
    (ht : u.tick = some u2) :
    u2.diff =
      ((List.range (u.width * u.height)).filter
          (fun idx => decide (u2.cells.getD idx Cell.Dead ≠
            u.cells.getD idx Cell.Dead))).map Int.ofNat ++
        List.replicate (u.width * u.height -
          ((List.range (u.width * u.height)).filter
            (fun idx => decide (u2.cells.getD idx Cell.Dead ≠
              u.cells.getD idx Cell.Dead))).length) (-1) := by
  rw [tick_spec u hu] at ht
  injection ht with ht
  subst ht
  have hcong : ∀ idx ∈ List.range (u.width * u.height),
      (fun idx => decide
        ((((List.range (u.width * u.height)).map u.nextAt).getD idx Cell.Dead)
          ≠ u.cells.getD idx Cell.Dead)) idx = u.changedB idx := by
    intro idx hidx
    have hlt := List.mem_range.1 hidx
    have hcell : ((List.range (u.width * u.height)).map u.nextAt).getD idx
        Cell.Dead = u.nextAt idx := by
      rw [List.getD_eq_getElem?_getD, List.getElem?_map,
          List.getElem?_range hlt]
      rfl
    show decide _ = u.changedB idx
    rw [hcell]
    unfold Universe.changedB
    exact decide_eq_decide.2 ne_comm
  show ((List.range (u.width * u.height)).filter u.changedB).map Int.ofNat ++
      _ = _
  rw [List.filter_congr hcong]

/-- A 3×3 universe with a single live centre cell, and its state after one
tick, used as concrete instances for the diff claims. -/
def centerUniverse : Universe :=
  { width := 3, height := 3,
    cells := (List.replicate 9 Cell.Dead).set 4 Cell.Alive,
    buffer := List.replicate 9 Cell.Dead,
    diff := List.replicate 9 (-1) }

def centerUniverseAfter : Universe :=
  { width := 3, height := 3,
    cells := List.replicate 9 Cell.Dead,
    buffer := (List.replicate 9 Cell.Dead).set 4 Cell.Alive,
    diff := [4, -1, -1, -1, -1, -1, -1, -1, -1] }

theorem diff_replay_reproduces_post_grid_witness :
    (centerUniverse.wf ∧ centerUniverse.tick = some centerUniverseAfter) ∧
    replayDiff centerUniverse.cells centerUniverseAfter.diff =
      centerUniverseAfter.cells :=
  ⟨⟨by decide, by decide⟩,
   diff_replay_reproduces_post_grid centerUniverse centerUniverseAfter
     (by decide) (by decide)⟩

theorem diff_buffer_layout_after_tick_witness :
    (centerUniverse.wf ∧ centerUniverse.tick = some centerUniverseAfter) ∧
    centerUniverseAfter.diff =
      ((List.range (centerUniverse.width * centerUniverse.height)).filter
          (fun idx => decide (centerUniverseAfter.cells.getD idx Cell.Dead ≠
            centerUniverse.cells.getD idx Cell.Dead))).map Int.ofNat ++
        List.replicate (centerUniverse.width * centerUniverse.height -
          ((List.range (centerUniverse.width * centerUniverse.height)).filter
            (fun idx => decide (centerUniverseAfter.cells.getD idx Cell.Dead ≠
              centerUniverse.cells.getD idx Cell.Dead))).length) (-1) :=
  ⟨⟨by decide, by decide⟩,
   diff_buffer_layout_after_tick centerUniverse centerUniverseAfter
     (by decide) (by decide)⟩

/-- Claim C6 exhibit: `set_width` (and `set_height`) reallocate only the
`cells` buffer.  Starting from `Universe::new()` and calling
`set_width(10)`, the scratch buffer and the diff buffer keep their old
length 14400 while `width * height` is now 1200, so the invariant that all
three buffers have length `width * height` is violated — a following
`tick()` would index out of bounds or corrupt the state. -/
theorem set_width_leaves_stale_buffers :
    ((Universe.new (fun _ => false)).set_width 10).width *
        ((Universe.new (fun _ => false)).set_width 10).height = 1200 ∧
    ((Universe.new (fun _ => false)).set_width 10).cells.length = 1200 ∧
    ((Universe.new (fun _ => false)).set_width 10).buffer.length = 14400 ∧
    ((Universe.new (fun _ => false)).set_width 10).diff.length = 14400 ∧
    ¬ ((Universe.new (fun _ => false)).set_width 10).wf := by
  have h1 : ((Universe.new (fun _ => false)).set_width 10).buffer.length
      = 14400 := by
    show (List.replicate (120 * 120) Cell.Dead).length = 14400
    rw [List.length_replicate]
  have h2 : ((Universe.new (fun _ => false)).set_width 10).diff.length
      = 14400 := by
    show (List.replicate (120 * 120) (-1 : Int)).length = 14400
    rw [List.length_replicate]
  have h3 : ((Universe.new (fun _ => false)).set_width 10).cells.length
      = 1200 := by
    show (List.replicate (10 * 120 % wordSize) Cell.Dead).length = 1200
    rw [List.length_replicate]
    norm_num [wordSize]
  refine ⟨rfl, h3, h1, h2, ?_⟩
  intro hwf
  have h4 := hwf.2.2.2.1
  have h5 : ((Universe.new (fun _ => false)).set_width 10).width *
      ((Universe.new (fun _ => false)).set_width 10).height = 1200 := rfl
  rw [h1, h5] at h4
  norm_num at h4

/-- Claim C7: resizing never fails (it is a total function) and always
leaves every cell of the reallocated grid dead, whatever the grid held
before; the new dimension is stored. -/
theorem resize_resets_all_cells_dead (u : Universe) (w h : Nat)
    (hw : 0 < w) (hh : 0 < h) :
    (∀ c ∈ (u.set_width w).cells, c = Cell.Dead) ∧
    (u.set_width w).width = w ∧ (u.set_width w).height = u.height ∧
    (∀ c ∈ (u.set_height h).cells, c = Cell.Dead) ∧
    (u.set_height h).height = h ∧ (u.set_height h).width = u.width := by
  refine ⟨?_, rfl, rfl, ?_, rfl, rfl⟩
  · intro c hc
    exact List.eq_of_mem_replicate hc
  · intro c hc
    exact List.eq_of_mem_replicate hc

theorem resize_resets_all_cells_dead_witness :
    (0 < 3 ∧ 0 < 4) ∧
    ((∀ c ∈ (oneAliveUniverse.set_width 3).cells, c = Cell.Dead) ∧
      (oneAliveUniverse.set_width 3).width = 3 ∧
      (oneAliveUniverse.set_width 3).height = oneAliveUniverse.height ∧
      (∀ c ∈ (oneAliveUniverse.set_height 4).cells, c = Cell.Dead) ∧
      (oneAliveUniverse.set_height 4).height = 4 ∧
      (oneAliveUniverse.set_height 4).width = oneAliveUniverse.width) :=
  ⟨⟨by decide, by decide⟩,
   resize_resets_all_cells_dead oneAliveUniverse 3 4 (by decide) (by decide)⟩

/-- Claim C9 counterexample: out-of-bounds coordinates do not fail fast
uniformly.  On a 5×5 all-dead universe, `toggle_cell(0, 7)` (column
7 ≥ width 5) succeeds and silently toggles the in-bounds cell with flat
index 7, the different cell (row 1, column 2); and
`toggle_cell(858993459, 1)` (row ≥ height) wraps the `u32` index
computation past `2 ^ 32` to flat index 0 and silently toggles cell
(0, 0) — so not even `row ≥ height` guarantees a failure. -/
theorem toggle_cell_oob_silent_write :
    (deadUniverse 5 5).width = 5 ∧ 5 ≤ 7 ∧
    (deadUniverse 5 5).get_index 1 2 = 7 ∧
    (deadUniverse 5 5).toggle_cell 0 7 =
      some { deadUniverse 5 5 with
              cells := (List.replicate 25 Cell.Dead).set 7 Cell.Alive } ∧
    (deadUniverse 5 5).height ≤ 858993459 ∧
    (deadUniverse 5 5).toggle_cell 858993459 1 =
      some { deadUniverse 5 5 with
              cells := (List.replicate 25 Cell.Dead).set 0 Cell.Alive } := by
  decide

/-- Claim C9 amended: out-of-bounds handling is neither fail-fast nor
uniform.  `toggle_cell(row, column)` computes the wrapping `u32` flat index
`get_index(row, column) = (row * width + column) mod 2^32` and fails fast
exactly when that index falls outside the cell buffer; otherwise it
silently toggles the cell at that flat index instead of the cell named —
`column ≥ width` can land in a later row, and an extreme `row ≥ height`
can wrap past `2 ^ 32` back into the buffer.  `set_cells` uses the same
`get_index` arithmetic and silently writes `Alive` at the same
re-interpreted flat index. -/
theorem toggle_cell_flat_index_behavior (u : Universe) (row column : Nat)
    (hu : u.wf) :
    (u.width * u.height ≤ u.get_index row column →
      u.toggle_cell row column = none) ∧
    (u.get_index row column < u.width * u.height →
      ∃ c, u.cells[u.get_index row column]? = some c ∧
        u.toggle_cell row column =
          some { u with
                 cells := (u.cells.set (u.get_index row column)
                   c.toggle) }) ∧
    (u.get_index row column < u.width * u.height →
      u.set_cells [(row, column)] =
        some { u with
               cells := (u.cells.set (u.get_index row column)
                 Cell.Alive) }) := by
  have hlen := hu.2.2.1
  refine ⟨?_, ?_, ?_⟩
  · intro hoob
    unfold Universe.toggle_cell
    rw [List.getElem?_eq_none (by omega)]
  · intro hin
    refine ⟨u.cells.getD (u.get_index row column) Cell.Dead,
      getElem?_eq_some_getD _ _ _ (by omega), ?_⟩
    unfold Universe.toggle_cell
    rw [getElem?_eq_some_getD _ _ Cell.Dead (by omega)]
  · intro hin
    unfold Universe.set_cells
    show (match setAllAt? u.cells [u.get_index row column] Cell.Alive with
          | none => none
          | some cells2 => some { u with cells := cells2 }) = _
    unfold setAllAt?
    rw [setAt?, if_pos (by
      show u.get_index row column < u.cells.length
      omega)]
    rfl

theorem toggle_cell_flat_index_behavior_witness :
    (deadUniverse 5 5).wf ∧
    ((25 ≤ (deadUniverse 5 5).get_index 0 7 →
        (deadUniverse 5 5).toggle_cell 0 7 = none) ∧
      ((deadUniverse 5 5).get_index 0 7 < 25 →
        ∃ c, (deadUniverse 5 5).cells[(deadUniverse 5 5).get_index 0 7]? =
            some c ∧
          (deadUniverse 5 5).toggle_cell 0 7 =
            some { deadUniverse 5 5 with
                   cells := ((deadUniverse 5 5).cells.set
                     ((deadUniverse 5 5).get_index 0 7) c.toggle) }) ∧
      ((deadUniverse 5 5).get_index 0 7 < 25 →
        (deadUniverse 5 5).set_cells [(0, 7)] =
          some { deadUniverse 5 5 with
                 cells := ((deadUniverse 5 5).cells.set
                   ((deadUniverse 5 5).get_index 0 7) Cell.Alive) })) :=
  ⟨by decide, toggle_cell_flat_index_behavior (deadUniverse 5 5) 0 7
    (by decide)⟩

/-- The collected live-cell list is empty exactly when no non-comment line
contains the alive marker. -/
theorem aliveCellsOf_eq_nil (s : String) :
    aliveCellsOf s = [] ↔
      ∀ l ∈ (rustLines s).filter (fun l => !(commentLine l)), 'O' ∉ l := by
  unfold aliveCellsOf
  rw [List.flatMap_eq_nil_iff]
  constructor
  · intro hall l hl hO
    have hl2 : l ∈ (((rustLines s).filter
        (fun l => !(commentLine l))).enum).map Prod.snd := by
      rw [List.enum_map_snd]
      exact hl
    rw [List.mem_map] at hl2
    obtain ⟨il, hil, hil2⟩ := hl2
    have hline := hall il hil
    rw [List.map_eq_nil_iff, List.filter_eq_nil_iff] at hline
    have hO2 : 'O' ∈ (il.2.enum).map Prod.snd := by
      rw [List.enum_map_snd, hil2]
      exact hO
    rw [List.mem_map] at hO2
    obtain ⟨jc, hjc, hjc2⟩ := hO2
    exact hline jc hjc (by rw [beq_iff_eq]; exact hjc2)
  · intro hall il hil
    rw [List.map_eq_nil_iff, List.filter_eq_nil_iff]
    intro jc hjc hbeq
    have hlmem : il.2 ∈ (rustLines s).filter (fun l => !(commentLine l)) :=
      List.snd_mem_of_mem_enum hil
    have hcmem : jc.2 ∈ il.2 := List.snd_mem_of_mem_enum hjc
    have hc : jc.2 = 'O' := by rwa [beq_iff_eq] at hbeq
    exact hall il.2 hlmem (hc ▸ hcmem)

/-- Claim C8: `Pattern::from_str` fails, with the descriptive error, exactly
when the input has no live-cell marker on any non-comment line; with at
least one marker it succeeds.  Parsing is a pure function of the input text
— it takes no `Universe` — so a failed parse mutates nothing. -/
theorem pattern_parse_error_iff_no_alive (s : String) :
    (∃ e, Pattern.fromStr s = Except.error e) ↔
      ∀ l ∈ (rustLines s).filter (fun l => !(commentLine l)), 'O' ∉ l := by
  rw [← aliveCellsOf_eq_nil]
  simp only [Pattern.fromStr]
  by_cases he : (aliveCellsOf s).isEmpty
  · rw [if_pos he]
    exact iff_of_true ⟨_, rfl⟩ (List.isEmpty_iff.1 he)
  · rw [if_neg he]
    constructor
    · rintro ⟨e, h⟩
      cases h
    · intro h
      exact absurd (List.isEmpty_iff.2 h) he

theorem wadd_small (a b : Nat) (h : a + b < 2 ^ 32) : wadd a b = a + b := by
  unfold wadd wordSize
  exact Nat.mod_eq_of_lt h

/-- The anchor computation `((a - c) + n) % n` of `insert_pattern`, carried
out in wrapping `u32` arithmetic, agrees with proper toroidal arithmetic
whenever `a < n`, `c ≤ n` and `n` is a realistic dimension. -/
theorem anchor_eq (a c n : Nat) (ha : a < n) (hc : c ≤ n)
    (hn : n < 2 ^ 31) :
    wadd (wsub a c) n % n = (a + n - c) % n := by
  have h : wadd (wsub a c) n = a + n - c := by
    unfold wsub wadd wordSize
    omega
  rw [h]

/-- Distinct in-bounds coordinates have distinct row-major indices. -/
theorem index_inj (w a b r c : Nat) (hw : 0 < w) (hb : b < w) (hc : c < w) :
    a * w + b = r * w + c ↔ a = r ∧ b = c := by
  constructor
  · intro h
    have h1 := (index_div_mod w a b hw hb).1
    have h2 := (index_div_mod w a b hw hb).2
    have h3 := (index_div_mod w r c hw hc).1
    have h4 := (index_div_mod w r c hw hc).2
    rw [h] at h1 h2
    constructor
    · rw [← h1, h3]
    · rw [← h2, h4]
  · rintro ⟨rfl, rfl⟩
    rfl

/-- Membership of an in-bounds coordinate in the wrapped bounding-box index
list of `insert_pattern`. -/
theorem mem_wrap_box (n : Nat) (hn : 0 < n) (hn2 : n < 2 ^ 31)
    (hnn : n * n < 2 ^ 32)
    (A B : Nat) (hA : A < n) (hB : B < n)
    (pw ph : Nat) (hpw : pw ≤ n) (hph : ph ≤ n)
    (r c : Nat) (hr : r < n) (hc : c < n) :
    ((r * n + c) ∈ (List.range pw).flatMap (fun x =>
        (List.range ph).map (fun y =>
          ((wadd A x % n) * n + (wadd B y % n)) % wordSize))) ↔
      ∃ x ∈ List.range pw, ∃ y ∈ List.range ph,
        r = (A + x) % n ∧ c = (B + y) % n := by
  rw [List.mem_flatMap]
  constructor
  · rintro ⟨x, hx, hmem⟩
    rw [List.mem_map] at hmem
    obtain ⟨y, hy, heq⟩ := hmem
    have hxn : x < pw := List.mem_range.1 hx
    have hyn : y < ph := List.mem_range.1 hy
    rw [show wordSize = 2 ^ 32 from rfl,
        Nat.mod_eq_of_lt (lt_trans
          (index_lt _ _ (Nat.mod_lt _ hn) (Nat.mod_lt _ hn)) hnn)] at heq
    rw [wadd_small A x (by omega), wadd_small B y (by omega)] at heq
    have hres := (index_inj n _ _ r c hn (Nat.mod_lt _ hn) hc).1 heq
    exact ⟨x, hx, y, hy, hres.1.symm, hres.2.symm⟩
  · rintro ⟨x, hx, y, hy, rfl, rfl⟩
    have hxn : x < pw := List.mem_range.1 hx
    have hyn : y < ph := List.mem_range.1 hy
    refine ⟨x, hx, ?_⟩
    rw [List.mem_map]
    refine ⟨y, hy, ?_⟩
    rw [show wordSize = 2 ^ 32 from rfl,
        Nat.mod_eq_of_lt (lt_trans
          (index_lt _ _ (Nat.mod_lt _ hn) (Nat.mod_lt _ hn)) hnn)]
    rw [wadd_small A x (by omega), wadd_small B y (by omega)]

/-- Membership of an in-bounds coordinate in the wrapped live-cell index
list of `insert_pattern`. -/
theorem mem_wrap_alive (n : Nat) (hn : 0 < n) (hn2 : n < 2 ^ 31)
    (hnn : n * n < 2 ^ 32)
    (A B : Nat) (hA : A < n) (hB : B < n)
    (cellsL : List (Nat × Nat)) (pw ph : Nat) (hpw : pw ≤ n) (hph : ph ≤ n)
    (hcl : ∀ xy ∈ cellsL, xy.1 < pw ∧ xy.2 < ph)
    (r c : Nat) (hr : r < n) (hc : c < n) :
    ((r * n + c) ∈ cellsL.map (fun xy =>
        ((wadd A xy.1 % n) * n + (wadd B xy.2 % n)) % wordSize)) ↔
      ∃ xy ∈ cellsL, r = (A + xy.1) % n ∧ c = (B + xy.2) % n := by
  rw [List.mem_map]
  constructor
  · rintro ⟨xy, hxy, heq⟩
    have hb := hcl xy hxy
    rw [show wordSize = 2 ^ 32 from rfl,
        Nat.mod_eq_of_lt (lt_trans
          (index_lt _ _ (Nat.mod_lt _ hn) (Nat.mod_lt _ hn)) hnn)] at heq
    rw [wadd_small A xy.1 (by omega), wadd_small B xy.2 (by omega)] at heq
    have hres := (index_inj n _ _ r c hn (Nat.mod_lt _ hn) hc).1 heq
    exact ⟨xy, hxy, hres.1.symm, hres.2.symm⟩
  · rintro ⟨xy, hxy, hr2, hc2⟩
    have hb := hcl xy hxy
    refine ⟨xy, hxy, ?_⟩
    rw [show wordSize = 2 ^ 32 from rfl,
        Nat.mod_eq_of_lt (lt_trans
          (index_lt _ _ (Nat.mod_lt _ hn) (Nat.mod_lt _ hn)) hnn)]
    rw [wadd_small A xy.1 (by omega), wadd_small B xy.2 (by omega),
        ← hr2, ← hc2]

/-- The flat indices cleared by `insert_pattern` on a square grid, with all
wrapping done by the width. -/
def clearIndices (u : Universe) (p : Pattern) (row column : Nat) :
    List Nat :=
  (List.range p.width).flatMap (fun x =>
    (List.range p.height).map (fun y =>
      ((wadd (wadd (wsub row (p.width / 2)) u.width % u.width) x % u.width) *
          u.width +
        (wadd (wadd (wsub column (p.height / 2)) u.width % u.width) y %
          u.width)) % wordSize))

/-- The flat indices set alive by `insert_pattern` on a square grid. -/
def aliveIndices (u : Universe) (p : Pattern) (row column : Nat) :
    List Nat :=
  p.alive_cells.map (fun xy =>
    ((wadd (wadd (wsub row (p.width / 2)) u.width % u.width) xy.1 % u.width) *
        u.width +
      (wadd (wadd (wsub column (p.height / 2)) u.width % u.width) xy.2 %
        u.width)) % wordSize)

/-- Claim C5 amended: on a SQUARE grid (the source wraps the row direction
by `self.width` and the column direction by `self.height`, which only
agrees with toroidal wraparound when the two coincide), with the pattern
fitting the grid, `insert_pattern` succeeds and produces exactly the
two-phase clear-then-set result: a cell is Alive iff it is a wrapped
translate of a pattern live cell, otherwise Dead iff it lies in the wrapped
bounding box, otherwise unchanged.  The top-left anchor is the wrapped
difference of the anchor and the floor-division centre, correct also when
the subtraction would go negative. -/
theorem insert_pattern_square_correct (u : Universe) (p : Pattern)
    (row column : Nat) (hu : u.wf) (hsq : u.height = u.width)
    (hr : row < u.height) (hc : column < u.width)
    (hpw : p.width ≤ u.width) (hph : p.height ≤ u.width)
    (hdim : u.width < 2 ^ 31)
    (hcl : ∀ xy ∈ p.alive_cells, xy.1 < p.width ∧ xy.2 < p.height) :
    ∃ u2, u.insert_pattern p row column = some u2 ∧
      u2.width = u.width ∧ u2.height = u.height ∧
      u2.cells.length = u.cells.length ∧
      ∀ r c, r < u.width → c < u.width →
        u2.cells[r * u.width + c]? = some (
          if ∃ xy ∈ p.alive_cells,
              r = (row + u.width - p.width / 2 + xy.1) % u.width ∧
              c = (column + u.width - p.height / 2 + xy.2) % u.width
          then Cell.Alive
          else if ∃ x ∈ List.range p.width, ∃ y ∈ List.range p.height,
              r = (row + u.width - p.width / 2 + x) % u.width ∧
              c = (column + u.width - p.height / 2 + y) % u.width
          then Cell.Dead
          else u.cellAt r c) := by
  have hw : 0 < u.width := hu.1
  have hrw : row < u.width := hsq ▸ hr
  have hc0 : p.width / 2 ≤ u.width := le_trans (Nat.div_le_self _ _) hpw
  have hc1 : p.height / 2 ≤ u.width := le_trans (Nat.div_le_self _ _) hph
  have hA := anchor_eq row (p.width / 2) u.width hrw hc0 hdim
  have hB := anchor_eq column (p.height / 2) u.width hc hc1 hdim
  have hlen : u.cells.length = u.width * u.width := by
    rw [hu.2.2.1, hsq]
  have hnn : u.width * u.width < 2 ^ 32 := by
    have hb := hu.2.2.2.2.2
    rw [hsq] at hb
    exact hb
  have hbC : ∀ i ∈ clearIndices u p row column, i < u.cells.length := by
    intro i hi
    unfold clearIndices at hi
    rw [List.mem_flatMap] at hi
    obtain ⟨x, -, hi⟩ := hi
    rw [List.mem_map] at hi
    obtain ⟨y, -, rfl⟩ := hi
    rw [hlen, show wordSize = 2 ^ 32 from rfl,
        Nat.mod_eq_of_lt (lt_trans
          (index_lt _ _ (Nat.mod_lt _ hw) (Nat.mod_lt _ hw)) hnn)]
    exact index_lt _ _ (Nat.mod_lt _ hw) (Nat.mod_lt _ hw)
  have h1 := setAllAt?_eq_writeWith Cell.Dead (clearIndices u p row column)
    u.cells hbC
  have hbA : ∀ i ∈ aliveIndices u p row column,
      i < (writeWith (fun _ => Cell.Dead) u.cells
        (clearIndices u p row column)).length := by
    intro i hi
    unfold aliveIndices at hi
    rw [List.mem_map] at hi
    obtain ⟨xy, -, rfl⟩ := hi
    rw [writeWith_length, hlen, show wordSize = 2 ^ 32 from rfl,
        Nat.mod_eq_of_lt (lt_trans
          (index_lt _ _ (Nat.mod_lt _ hw) (Nat.mod_lt _ hw)) hnn)]
    exact index_lt _ _ (Nat.mod_lt _ hw) (Nat.mod_lt _ hw)
  have h2 := setAllAt?_eq_writeWith Cell.Alive (aliveIndices u p row column)
    (writeWith (fun _ => Cell.Dead) u.cells (clearIndices u p row column))
    hbA
  have hmain : u.insert_pattern p row column = some
      { u with cells := (writeWith (fun _ => Cell.Alive)
          (writeWith (fun _ => Cell.Dead) u.cells
            (clearIndices u p row column))
          (aliveIndices u p row column)) } := by
    unfold clearIndices at h1
    unfold clearIndices aliveIndices at h2
    simp only [Universe.insert_pattern, Universe.get_index]
    rw [hsq]
    unfold clearIndices aliveIndices
    simp only [h1, Option.some_bind, h2]
  refine ⟨_, hmain, rfl, rfl, by rw [writeWith_length, writeWith_length], ?_⟩
  intro r c hrlt hclt
  have hj : r * u.width + c < u.cells.length := by
    rw [hlen]
    exact index_lt r c hrlt hclt
  have hAt : ∀ t, (wadd (wsub row (p.width / 2)) u.width % u.width + t) %
      u.width = (row + u.width - p.width / 2 + t) % u.width := by
    intro t
    rw [hA, Nat.mod_add_mod]
  have hBt : ∀ t, (wadd (wsub column (p.height / 2)) u.width % u.width + t) %
      u.width = (column + u.width - p.height / 2 + t) % u.width := by
    intro t
    rw [hB, Nat.mod_add_mod]
  have hiffA : (r * u.width + c ∈ aliveIndices u p row column) ↔
      ∃ xy ∈ p.alive_cells,
        r = (row + u.width - p.width / 2 + xy.1) % u.width ∧
        c = (column + u.width - p.height / 2 + xy.2) % u.width := by
    unfold aliveIndices
    rw [mem_wrap_alive u.width hw hdim hnn _ _ (Nat.mod_lt _ hw)
      (Nat.mod_lt _ hw) p.alive_cells p.width p.height hpw hph hcl
      r c hrlt hclt]
    simp only [hAt, hBt]
  have hiffC : (r * u.width + c ∈ clearIndices u p row column) ↔
      ∃ x ∈ List.range p.width, ∃ y ∈ List.range p.height,
        r = (row + u.width - p.width / 2 + x) % u.width ∧
        c = (column + u.width - p.height / 2 + y) % u.width := by
    unfold clearIndices
    rw [mem_wrap_box u.width hw hdim hnn _ _ (Nat.mod_lt _ hw)
      (Nat.mod_lt _ hw) p.width p.height hpw hph r c hrlt hclt]
    simp only [hAt, hBt]
  show (writeWith (fun _ => Cell.Alive)
      (writeWith (fun _ => Cell.Dead) u.cells (clearIndices u p row column))
      (aliveIndices u p row column))[r * u.width + c]? = _
  rw [writeWith_getElem?, writeWith_getElem?, writeWith_length]
  by_cases hPA : ∃ xy ∈ p.alive_cells,
      r = (row + u.width - p.width / 2 + xy.1) % u.width ∧
      c = (column + u.width - p.height / 2 + xy.2) % u.width
  · rw [if_pos ⟨hiffA.2 hPA, hj⟩, if_pos hPA]
  · rw [if_neg (fun hh => hPA (hiffA.1 hh.1)), if_neg hPA]
    by_cases hPC : ∃ x ∈ List.range p.width, ∃ y ∈ List.range p.height,
        r = (row + u.width - p.width / 2 + x) % u.width ∧
        c = (column + u.width - p.height / 2 + y) % u.width
    · rw [if_pos ⟨hiffC.2 hPC, hj⟩, if_pos hPC]
    · rw [if_neg (fun hh => hPC (hiffC.1 hh.1)), if_neg hPC]
      exact getElem?_eq_some_getD _ _ _ hj

/-- The parsed form of the embedded glider schema: the `width` field is its
row extent 3 and the `height` field its column extent 3 (the swapped field
naming of `Pattern::from_str`). -/
def gliderPattern : Pattern :=
  { alive_cells := [(0, 1), (1, 2), (2, 0), (2, 1), (2, 2)],
    width := 3, height := 3 }

theorem gliderText_parses :
    Pattern.fromStr gliderText = Except.ok gliderPattern := rfl

/-- Claim C5 counterexample: on a NON-square universe (width 5, height 2)
the claim fails.  Inserting the glider at the in-bounds anchor (1, 1) does
not produce any wrapped stamp: because the source wraps the row direction
by `self.width` (5) instead of the height (2), the clear loop reaches the
out-of-bounds flat index 10 and the operation aborts (`none`), both through
`insert_pattern` and through `insert_glider`. -/
theorem insert_pattern_nonsquare_panics :
    (deadUniverse 5 2).wf ∧ 1 < (deadUniverse 5 2).height ∧
    1 < (deadUniverse 5 2).width ∧
    (deadUniverse 5 2).insert_pattern gliderPattern 1 1 = none ∧
    (deadUniverse 5 2).insert_glider 1 1 = none :=
  ⟨by decide, by decide, by decide, by decide, by rfl⟩

theorem insert_pattern_square_correct_witness :
    ((deadUniverse 3 3).wf ∧
      (deadUniverse 3 3).height = (deadUniverse 3 3).width ∧
      1 < (deadUniverse 3 3).height ∧ 1 < (deadUniverse 3 3).width ∧
      gliderPattern.width ≤ (deadUniverse 3 3).width ∧
      gliderPattern.height ≤ (deadUniverse 3 3).width ∧
      (deadUniverse 3 3).width < 2 ^ 31 ∧
      (∀ xy ∈ gliderPattern.alive_cells,
        xy.1 < gliderPattern.width ∧ xy.2 < gliderPattern.height)) ∧
    ∃ u2, (deadUniverse 3 3).insert_pattern gliderPattern 1 1 = some u2 ∧
      u2.width = (deadUniverse 3 3).width ∧
      u2.height = (deadUniverse 3 3).height ∧
      u2.cells.length = (deadUniverse 3 3).cells.length ∧
      ∀ r c, r < (deadUniverse 3 3).width → c < (deadUniverse 3 3).width →
        u2.cells[r * (deadUniverse 3 3).width + c]? = some (
          if ∃ xy ∈ gliderPattern.alive_cells,
              r = (1 + (deadUniverse 3 3).width - gliderPattern.width / 2 +
                xy.1) % (deadUniverse 3 3).width ∧
              c = (1 + (deadUniverse 3 3).width - gliderPattern.height / 2 +
                xy.2) % (deadUniverse 3 3).width
          then Cell.Alive
          else if ∃ x ∈ List.range gliderPattern.width,
              ∃ y ∈ List.range gliderPattern.height,
              r = (1 + (deadUniverse 3 3).width - gliderPattern.width / 2 +
                x) % (deadUniverse 3 3).width ∧
              c = (1 + (deadUniverse 3 3).width - gliderPattern.height / 2 +
                y) % (deadUniverse 3 3).width
          then Cell.Dead
          else (deadUniverse 3 3).cellAt r c) :=
  ⟨⟨by decide, by decide, by decide, by decide, by decide, by decide,
    by decide, by decide⟩,
   insert_pattern_square_correct (deadUniverse 3 3) gliderPattern 1 1
     (by decide) (by decide) (by decide) (by decide) (by decide) (by decide)
     (by decide) (by decide)⟩
